import Mathlib

/-!
Shallow embedding of `src/dataset_conversion_scripts/convert_dataset_v21_to_v30.py`.

Conventions of the embedding:
* Python floats are modelled as rationals (`ℚ`); numpy arrays as `List ℚ` /
  `List (List ℚ)` (rows).
* Python `dict`s are modelled as association lists with insertion-order
  semantics: assigning to an existing key updates it in place, assigning a
  fresh key appends at the end (`dictInsert`).
* numpy reductions over `axis=0` are modelled column-wise on lists of rows.
-/

namespace ConvertV30

/-! ## Python dict model -/

/-- Python dict assignment `d[k] = v`: update in place when the key is
present (keeping its insertion position), else append at the end. -/
def dictInsert {κ α : Type} [DecidableEq κ] (k : κ) (v : α) :
    List (κ × α) → List (κ × α)
  | [] => [(k, v)]
  | (k', v') :: rest =>
      if k' = k then (k, v) :: rest else (k', v') :: dictInsert k v rest

/-- Python dict lookup `d.get(k)` / `k in d`. -/
def dictGet? {κ α : Type} [DecidableEq κ] (k : κ) :
    List (κ × α) → Option α
  | [] => none
  | (k', v) :: rest => if k' = k then some v else dictGet? k rest

/-- Python `list(d.keys())` (insertion order). -/
def dictKeys {κ α : Type} (d : List (κ × α)) : List κ := d.map Prod.fst

/-- Python `list(d.values())` (insertion order). -/
def dictValues {κ α : Type} (d : List (κ × α)) : List α := d.map Prod.snd

/-! ## Per-episode and global statistics (`compute_global_stats_from_episodes`) -/

/-- One feature's per-episode statistics record, as stored in
`episodes_stats.jsonl`: element-wise `min`/`max`/`mean`/`std` vectors over the
feature's dimensions plus the episode's frame `count` (the scalar-count case
of the source, lines 106-112: `all_counts.ndim == 1`, so `weights = counts`). -/
structure FeatStats where
  min : List ℚ
  max : List ℚ
  mean : List ℚ
  std : List ℚ
  count : ℕ
deriving Repr, DecidableEq

/-- A single episode's statistics: feature name ↦ `FeatStats` (a Python dict). -/
def EpStats : Type := List (String × FeatStats)

instance : DecidableEq EpStats := by unfold EpStats; infer_instance

/-- `np.min(rows, axis=0)` / `np.max(rows, axis=0)`: reduce a list of rows
element-wise with `f`. -/
def colwiseReduce (f : ℚ → ℚ → ℚ) : List (List ℚ) → List ℚ
  | [] => []
  | r :: rs => rs.foldl (List.zipWith f) r

/-- `np.average(rows, axis=0, weights=ws)`: per column `j`,
`Σ_i rows[i][j] * ws[i] / Σ_i ws[i]`. -/
def npAverage (rows : List (List ℚ)) (ws : List ℚ) : List ℚ :=
  match rows with
  | [] => []
  | r :: _ =>
      (List.range r.length).map
        (fun j => (List.zipWith (fun row w => row.getD j 0 * w) rows ws).sum / ws.sum)

/-- The global statistics computed for one feature (lines 114-121 of the
source).  The source stores `std = np.sqrt(np.average(all_stds**2, ...))`;
since the square root of a rational is irrational in general we record the
radicand `stdSq` — the count-weighted average of the episode variances —
whose square root the source takes as its final step. -/
structure GlobalFeatStats where
  min : List ℚ
  max : List ℚ
  mean : List ℚ
  stdSq : List ℚ
  count : ℕ
deriving Repr, DecidableEq

/-- The aggregation body of the `for feat_name in feature_names` loop
(lines 82-121): element-wise min/max, count-weighted mean, count-weighted
average of variances, and summed count, over the episodes that have the
feature. -/
def aggregateFeat (l : List FeatStats) : GlobalFeatStats where
  min := colwiseReduce min (l.map FeatStats.min)
  max := colwiseReduce max (l.map FeatStats.max)
  mean := npAverage (l.map FeatStats.mean) (l.map (fun s => (s.count : ℚ)))
  stdSq := npAverage (l.map (fun s => s.std.map (fun x => x * x)))
    (l.map (fun s => (s.count : ℚ)))
  count := (l.map FeatStats.count).sum

/-- Lines 89-97: collect the feature's stats over `episodes_stats.values()`,
skipping (`continue`) the episodes whose stats do not contain the feature. -/
def collectFeat (eps : List EpStats) (feat : String) : List FeatStats :=
  eps.filterMap (fun ep => dictGet? feat ep)

/-- `compute_global_stats_from_episodes` (lines 73-123): feature names are
taken from the FIRST episode's stats (line 78); each feature is aggregated
over the episodes that contain it; results are assigned into the
`global_stats` dict.  On an empty stats mapping the source raises
`IndexError` at `list(...)[0]`; the embedding returns the empty dict there
and all theorems assume a nonempty input. -/
def compute_global_stats_from_episodes (episodes_stats : List (ℕ × EpStats)) :
    List (String × GlobalFeatStats) :=
  match dictValues episodes_stats with
  | [] => []
  | first :: _ =>
      (dictKeys first).foldl
        (fun acc feat =>
          dictInsert feat (aggregateFeat (collectFeat (dictValues episodes_stats) feat)) acc)
        []

/-! ## Metadata loader (`load_v21_episodes_stats`, lines 42-49) -/

/-- `load_v21_episodes_stats`: fold the records of `episodes_stats.jsonl`
into a dict `stats[ep_idx] = item["stats"]`.  The function is total: a
duplicated `episode_index` silently overwrites the earlier record. -/
def load_v21_episodes_stats (records : List (ℕ × EpStats)) : List (ℕ × EpStats) :=
  records.foldl (fun d r => dictInsert r.1 r.2 d) []

/-- The value the last record with key `k` carries, if any (later records
take precedence). -/
def lastLookup {κ α : Type} [DecidableEq κ] (k : κ) : List (κ × α) → Option α
  | [] => none
  | (k', v) :: rest =>
      match lastLookup k rest with
      | some w => some w
      | none => if k' = k then some v else none

/-! ## Quantile estimator (`compute_quantiles`, lines 62-70) -/

/-- Insert into an ascending list (used to model numpy's internal sort). -/
def insertSorted (a : ℚ) : List ℚ → List ℚ
  | [] => [a]
  | b :: bs => if a ≤ b then a :: b :: bs else b :: insertSorted a bs

/-- Ascending sort of a column, as numpy sorts before interpolating. -/
def sortAsc (l : List ℚ) : List ℚ := l.foldr insertSorted []

/-- `⌊q⌋` as a natural number, for nonnegative `q`. -/
def ratFloorNat (q : ℚ) : ℕ := (q.num / (q.den : ℤ)).toNat

/-- `np.quantile(col, q)` with the default linear-interpolation method on a
one-dimensional array: sort ascending, set `h = q * (n - 1)`, `i = ⌊h⌋`, and
return `x_i + (h - i) * (x_{i+1} - x_i)` (with `x_{i+1}` read as `x_i` at the
upper end, where `h - i = 0` anyway). -/
def npQuantile1D (col : List ℚ) (q : ℚ) : ℚ :=
  let x := sortAsc col
  let h : ℚ := q * ((x.length : ℚ) - 1)
  let i : ℕ := ratFloorNat h
  let xi := x.getD i 0
  xi + (h - (i : ℚ)) * (x.getD (i + 1) xi - xi)

/-- The columns of a two-dimensional array (rows = frames, columns =
feature dimensions), read off the first row's length as numpy does for a
rectangular array. -/
def columnsOf (data : List (List ℚ)) : List (List ℚ) :=
  match data with
  | [] => []
  | r :: _ => (List.range r.length).map (fun j => data.map (fun row => row.getD j 0))

/-- `np.quantile(data, q, axis=0)`: the 1-D quantile of each column. -/
def npQuantileAxis0 (data : List (List ℚ)) (q : ℚ) : List ℚ :=
  (columnsOf data).map (fun col => npQuantile1D col q)

/-- The five quantile arrays returned by `compute_quantiles`. -/
structure Quantiles where
  q01 : List ℚ
  q10 : List ℚ
  q50 : List ℚ
  q90 : List ℚ
  q99 : List ℚ
deriving Repr, DecidableEq

/-- `compute_quantiles` (lines 62-70): the five fixed quantile levels,
each computed per column over the raw episode array. -/
def compute_quantiles (data : List (List ℚ)) : Quantiles where
  q01 := npQuantileAxis0 data (1 / 100)
  q10 := npQuantileAxis0 data (10 / 100)
  q50 := npQuantileAxis0 data (50 / 100)
  q90 := npQuantileAxis0 data (90 / 100)
  q99 := npQuantileAxis0 data (99 / 100)

/-! ## Tabular consolidation (step 4, lines 200-208) -/

/-- A tabular file: ordered column names and rows (each row one value per
column, in column order). -/
structure Table where
  cols : List String
  rows : List (List ℚ)
deriving Repr, DecidableEq

/-- `pd.concat(all_episodes_data, ignore_index=True)` over per-episode
tables whose schemas agree: the column order of the inputs is kept and the
rows are concatenated in input order.  (`pd.concat([])` raises; theorems
assume a nonempty input list, and the episode files arrive sorted by
filename `episode_%06d.parquet`, i.e. in increasing episode-index order.) -/
def concatTables (ts : List Table) : Table where
  cols := (ts.headD ⟨[], []⟩).cols
  rows := (ts.map Table.rows).flatten

/-- The row offset at which episode `k`'s block starts inside the
consolidated table: the total length of the earlier episodes' row lists. -/
def rowOffset (ts : List Table) (k : ℕ) : ℕ :=
  ((ts.take k).map (fun t => t.rows.length)).sum

/-! ## Episode metadata assembly (step 6, lines 243-299) -/

/-- The range fields written into one output episode-metadata row when the
episode's data file exists: the half-open dataset row range and the video
`from`/`to` timestamps.  The source writes the same pair of timestamps for
every camera stream of the episode (lines 277-283), so one pair per episode
suffices. -/
structure EpRange where
  dataset_from_index : ℕ
  dataset_to_index : ℕ
  from_timestamp : ℚ
  to_timestamp : ℚ
deriving Repr, DecidableEq

/-- The per-episode loop of step 6 (lines 251-296), restricted to the range
bookkeeping: `cum` is the running `cumulative_index`; each episode is given
by `some ts` (its data file exists and holds the `timestamp` column `ts`,
one entry per frame) or `none` (missing file: no range fields are written
and `cumulative_index` does not advance).  `from_timestamp`/`to_timestamp`
are `timestamps[0]` and `timestamps[-1]` of the episode's own data — the
source adds no cumulative time offset. -/
def makeEpisodeRanges (cum : ℕ) : List (Option (List ℚ)) → List (Option EpRange)
  | [] => []
  | none :: rest => none :: makeEpisodeRanges cum rest
  | some ts :: rest =>
      some
        { dataset_from_index := cum
          dataset_to_index := cum + ts.length
          from_timestamp := ts.headD 0
          to_timestamp := ts.getLastD 0 } :: makeEpisodeRanges (cum + ts.length) rest

/-! ## Video consolidation (step 5, lines 210-241) -/

/-- What the video step leaves in the output directory for one camera
stream. -/
inductive VideoOutput where
  /-- ffmpeg concatenated all `n` episode videos into `file-000.mp4`. -/
  | merged (n : ℕ)
  /-- fallback: only the first episode's video was copied verbatim. -/
  | copiedFirst
  /-- no episode videos were found for the stream; nothing was written. -/
  | skipped
deriving Repr, DecidableEq

/-- Observable outcome of the per-camera-stream body of step 5. -/
structure VideoStepResult where
  output : VideoOutput
  /-- does `concat_<key>.txt` still exist when the step ends? -/
  manifestRemains : Bool
  /-- was a warning logged? -/
  warned : Bool
  /-- did an exception propagate out of the step? -/
  excPropagated : Bool
  /-- episode indices flagged `DegradedArtifact` in output provenance.
  The source has no provenance mechanism at all, so no path records any. -/
  degradedFlags : List ℕ
deriving Repr, DecidableEq

/-- The body of `for video_key in video_keys` (lines 213-241): with
`numVideos` episode videos found, write the concat manifest, run ffmpeg,
and on success unlink the manifest; on a raised error (non-zero encoder
status under `check=True`) log warnings and copy the first video — the
`unlink` inside the `try` is never reached on that path, so the manifest
is left behind. -/
def consolidateVideos (numVideos : ℕ) (encoderOk : Bool) : VideoStepResult :=
  if numVideos = 0 then
    { output := .skipped, manifestRemains := false, warned := false
      excPropagated := false, degradedFlags := [] }
  else if encoderOk then
    { output := .merged numVideos, manifestRemains := false, warned := false
      excPropagated := false, degradedFlags := [] }
  else
    { output := .copiedFirst, manifestRemains := true, warned := true
      excPropagated := false, degradedFlags := [] }

/-- The total frame count of the first `i` episodes: the value
`cumulative_index` holds when the step-6 loop reaches episode `i` (all data
files present). -/
def prefixFrames (l : List (List ℚ)) (i : ℕ) : ℕ :=
  ((l.take i).map List.length).sum

/-! ## Concrete data used by witnesses and counterexamples -/

/-- Episode statistics with count 10 and mean 1.0 (the spec's worked
example for the weighted mean). -/
def exStats10 : FeatStats := ⟨[0], [2], [1], [1], 10⟩

/-- Episode statistics with count 30 and mean 2.0. -/
def exStats30 : FeatStats := ⟨[1], [3], [2], [2], 30⟩

/-- A scalar feature's statistics, used to populate example episodes. -/
def fsA : FeatStats := ⟨[0], [1], [1], [1], 4⟩

/-- A second scalar feature's statistics. -/
def fsB : FeatStats := ⟨[1], [2], [2], [2], 6⟩

/-- A third scalar feature's statistics. -/
def fsC : FeatStats := ⟨[2], [3], [3], [1], 8⟩

/-- An example episode whose stats cover features `f` and `g`. -/
def epFG : EpStats := [("f", fsA), ("g", fsB)]

/-- An example episode whose stats cover only feature `f` (missing `g`). -/
def epFonly : EpStats := [("f", fsC)]

/-- An example episode whose stats cover only feature `g`. -/
def epGonly : EpStats := [("g", fsB)]

/-- Example tables sharing the single column `a`. -/
def tbl1 : Table := ⟨["a"], [[1], [2]]⟩

def tbl2 : Table := ⟨["a"], [[3]]⟩

def tbl3 : Table := ⟨["a"], [[4], [5]]⟩

/-- The column `[1, 2, ..., 100]` of the spec's quantile example. -/
def exCol : List ℚ := 1 :: (List.range 99).map (fun i : ℕ => (i : ℚ) + 2)

/-- The spec's quantile example as a two-dimensional single-column raw
array: one frame per row, rows `[1], [2], ..., [100]`. -/
def exColumn100 : List (List ℚ) := exCol.map (fun x => [x])

/-! ## Helper lemmas: list indexing -/

lemma getD_range_map {α : Type} (f : ℕ → α) (d : α) {n j : ℕ} (hj : j < n) :
    ((List.range n).map f).getD j d = f j := by
  simp [List.getD_eq_getElem?_getD, List.getElem?_map, List.getElem?_range hj]

lemma getD_map_lt {α β : Type} (f : α → β) {l : List α} {j : ℕ} (hj : j < l.length)
    (d : α) (d' : β) : (l.map f).getD j d' = f (l.getD j d) := by
  rw [List.getD_eq_getElem l d hj,
    List.getD_eq_getElem (l.map f) d' (by simpa using hj)]
  simp

lemma getD_zipWith_lt {α : Type} (f : α → α → α) {r s : List α} {j : ℕ}
    (hr : j < r.length) (hs : j < s.length) (d : α) :
    (List.zipWith f r s).getD j d = f (r.getD j d) (s.getD j d) := by
  rw [List.getD_eq_getElem r d hr, List.getD_eq_getElem s d hs,
    List.getD_eq_getElem (List.zipWith f r s) d
      (by rw [List.length_zipWith]; exact lt_min hr hs)]
  simp [List.getElem_zipWith]

/-! ## Helper lemmas: the dict model -/

lemma dictGet?_dictInsert_self {κ α : Type} [DecidableEq κ] (k : κ) (v : α)
    (d : List (κ × α)) : dictGet? k (dictInsert k v d) = some v := by
  induction d with
  | nil => simp [dictInsert, dictGet?]
  | cons p rest ih =>
      by_cases h : p.1 = k
      · simp [dictInsert, dictGet?, h]
      · simpa [dictInsert, dictGet?, h] using ih

lemma dictGet?_dictInsert_ne {κ α : Type} [DecidableEq κ] {k k' : κ} (v : α)
    (d : List (κ × α)) (h : k' ≠ k) :
    dictGet? k' (dictInsert k v d) = dictGet? k' d := by
  have hk : ¬ (k = k') := fun hh => h hh.symm
  induction d with
  | nil => simp [dictInsert, dictGet?, hk]
  | cons p rest ih =>
      obtain ⟨k0, v0⟩ := p
      by_cases hp : k0 = k
      · subst hp
        simp [dictInsert, dictGet?, hk]
      · by_cases hp' : k0 = k'
        · simp [dictInsert, dictGet?, hp, hp', h]
        · simpa [dictInsert, dictGet?, hp, hp'] using ih

/-- Looking a key up after folding `dict[k] = F k` assignments over a list of
keys: present keys map to `F`, absent keys fall through to the accumulator. -/
lemma dictGet?_foldl_insertF {κ α : Type} [DecidableEq κ]
    (names : List κ) (F : κ → α) (acc : List (κ × α)) (k : κ) :
    dictGet? k (names.foldl (fun acc n => dictInsert n (F n) acc) acc)
      = if k ∈ names then some (F k) else dictGet? k acc := by
  induction names generalizing acc with
  | nil => simp
  | cons n ns ih =>
      rw [List.foldl_cons, ih]
      by_cases hmem : k ∈ ns
      · simp [hmem]
      · by_cases hn : n = k
        · subst hn
          simp [hmem, dictGet?_dictInsert_self]
        · have : k ≠ n := fun hh => hn hh.symm
          simp [hmem, this, dictGet?_dictInsert_ne _ _ this]

/-- Looking a key up after folding `stats[r.1] = r.2` assignments over a list
of records: the LAST record with that key wins; keys absent from the records
fall through to the accumulator. -/
lemma dictGet?_foldl_insert_records {κ α : Type} [DecidableEq κ]
    (records : List (κ × α)) (acc : List (κ × α)) (k : κ) :
    dictGet? k (records.foldl (fun d r => dictInsert r.1 r.2 d) acc)
      = match lastLookup k records with
        | some v => some v
        | none => dictGet? k acc := by
  induction records generalizing acc with
  | nil => simp [lastLookup]
  | cons r rs ih =>
      rw [List.foldl_cons, ih]
      cases hrs : lastLookup k rs with
      | some w => simp [lastLookup, hrs]
      | none =>
          by_cases hk : r.1 = k
          · subst hk
            simp [lastLookup, hrs, dictGet?_dictInsert_self]
          · simp [lastLookup, hrs, hk, dictGet?_dictInsert_ne _ _ fun hh => hk hh.symm]

/-! ## Helper lemmas: column-wise aggregation -/

lemma foldl_zipWith_length (f : ℚ → ℚ → ℚ) :
    ∀ (rest : List (List ℚ)) (r0 : List ℚ), (∀ r ∈ rest, r.length = r0.length) →
      (rest.foldl (List.zipWith f) r0).length = r0.length := by
  intro rest
  induction rest with
  | nil => intro r0 _; rfl
  | cons r rs ih =>
      intro r0 hlen
      have hr : r.length = r0.length := hlen r (by simp)
      have hz : (List.zipWith f r0 r).length = r0.length := by
        simp [List.length_zipWith, hr]
      rw [List.foldl_cons, ih (List.zipWith f r0 r)
        (fun r' hr' => by rw [hz]; exact hlen r' (by simp [hr']))]
      exact hz

lemma foldl_zipWith_getD (f : ℚ → ℚ → ℚ) :
    ∀ (rest : List (List ℚ)) (r0 : List ℚ), (∀ r ∈ rest, r.length = r0.length) →
      ∀ j, j < r0.length →
      (rest.foldl (List.zipWith f) r0).getD j 0
        = (rest.map (fun r => r.getD j 0)).foldl f (r0.getD j 0) := by
  intro rest
  induction rest with
  | nil => intro r0 _ j _; rfl
  | cons r rs ih =>
      intro r0 hlen j hj
      have hr : r.length = r0.length := hlen r (by simp)
      have hz : (List.zipWith f r0 r).length = r0.length := by
        simp [List.length_zipWith, hr]
      rw [List.foldl_cons, List.map_cons, List.foldl_cons,
        ← getD_zipWith_lt f hj (hr ▸ hj) 0]
      exact ih (List.zipWith f r0 r)
        (fun r' hr' => by rw [hz]; exact hlen r' (by simp [hr'])) j (hz ▸ hj)

lemma foldl_sel_mem (f : ℚ → ℚ → ℚ) (hf : ∀ a b, f a b = a ∨ f a b = b) :
    ∀ (l : List ℚ) (a : ℚ), l.foldl f a ∈ a :: l := by
  intro l
  induction l with
  | nil => intro a; simp
  | cons b bs ih =>
      intro a
      have h1 : bs.foldl f (f a b) ∈ (f a b) :: bs := ih (f a b)
      rw [List.foldl_cons]
      rcases List.mem_cons.mp h1 with h2 | h2
      · rcases hf a b with h3 | h3 <;> rw [h2, h3] <;> simp
      · simp [h2]

lemma foldl_min_le :
    ∀ (l : List ℚ) (a : ℚ), ∀ x ∈ a :: l, l.foldl min a ≤ x := by
  intro l
  induction l with
  | nil => intro a x hx; simp at hx; simp [hx]
  | cons b bs ih =>
      intro a x hx
      rw [List.foldl_cons]
      rcases List.mem_cons.mp hx with h | h
      · rw [h]; exact le_trans (ih (min a b) (min a b) (by simp)) (min_le_left a b)
      · rcases List.mem_cons.mp h with h' | h'
        · rw [h']
          exact le_trans (ih (min a b) (min a b) (by simp)) (min_le_right a b)
        · exact ih (min a b) x (by simp [h'])

lemma foldl_le_max :
    ∀ (l : List ℚ) (a : ℚ), ∀ x ∈ a :: l, x ≤ l.foldl max a := by
  intro l
  induction l with
  | nil => intro a x hx; simp at hx; simp [hx]
  | cons b bs ih =>
      intro a x hx
      rw [List.foldl_cons]
      rcases List.mem_cons.mp hx with h | h
      · rw [h]; exact le_trans (le_max_left a b) (ih (max a b) (max a b) (by simp))
      · rcases List.mem_cons.mp h with h' | h'
        · rw [h']
          exact le_trans (le_max_right a b) (ih (max a b) (max a b) (by simp))
        · exact ih (max a b) x (by simp [h'])

/-- The `j`-th component of `np.average(rows, axis=0, weights=ws)` for a
nonempty `rows`. -/
lemma npAverage_getD (r0 : List ℚ) (rest : List (List ℚ)) (ws : List ℚ)
    {j : ℕ} (hj : j < r0.length) :
    (npAverage (r0 :: rest) ws).getD j 0
      = (List.zipWith (fun row w => row.getD j 0 * w) (r0 :: rest) ws).sum / ws.sum := by
  simp only [npAverage]
  exact getD_range_map _ _ hj

/-! ## C2: global statistics aggregation -/

/-- C2: for every feature, global aggregation over the per-episode statistics
yields: `count` equal to the sum of all episode counts; `min`/`max` equal to
the element-wise minimum/maximum across the episodes' `min`/`max` (stated as:
the aggregate entry is a member of the column and bounds it); `mean` equal to
the count-weighted average `Σ(mean_i * count_i) / Σ(count_i)`; and `std`
equal to the square root of the count-weighted average of the episode
variances — the source computes `np.sqrt(stdSq)`, and `stdSq` is proved equal
to `Σ(std_i² * count_i) / Σ(count_i)`. -/
theorem C2_global_stats_aggregation (l : List FeatStats) (s0 : FeatStats)
    (rest : List FeatStats) (d : ℕ) (hl : l = s0 :: rest)
    (hmin : ∀ s ∈ l, s.min.length = d) (hmax : ∀ s ∈ l, s.max.length = d)
    (hmean : ∀ s ∈ l, s.mean.length = d) (hstd : ∀ s ∈ l, s.std.length = d) :
    (aggregateFeat l).count = (l.map FeatStats.count).sum ∧
    (∀ j, j < d →
      (aggregateFeat l).mean.getD j 0
        = (l.map (fun s => s.mean.getD j 0 * (s.count : ℚ))).sum
            / (l.map (fun s => ((s.count : ℚ)))).sum) ∧
    (∀ j, j < d →
      (aggregateFeat l).stdSq.getD j 0
        = (l.map (fun s => s.std.getD j 0 * s.std.getD j 0 * (s.count : ℚ))).sum
            / (l.map (fun s => ((s.count : ℚ)))).sum) ∧
    (∀ j, j < d →
      (aggregateFeat l).min.getD j 0 ∈ l.map (fun s => s.min.getD j 0) ∧
      ∀ x ∈ l.map (fun s => s.min.getD j 0), (aggregateFeat l).min.getD j 0 ≤ x) ∧
    (∀ j, j < d →
      (aggregateFeat l).max.getD j 0 ∈ l.map (fun s => s.max.getD j 0) ∧
      ∀ x ∈ l.map (fun s => s.max.getD j 0), x ≤ (aggregateFeat l).max.getD j 0) := by
  subst hl
  refine ⟨rfl, ?_, ?_, ?_, ?_⟩
  · -- mean
    intro j hj
    have h0 : j < s0.mean.length := by rw [hmean s0 (by simp)]; exact hj
    show (npAverage ((s0 :: rest).map FeatStats.mean)
        ((s0 :: rest).map (fun s => (s.count : ℚ)))).getD j 0 = _
    rw [List.map_cons, npAverage_getD _ _ _ h0, ← List.map_cons FeatStats.mean,
      List.zipWith_map, List.zipWith_same]
  · -- stdSq
    intro j hj
    have h0 : j < (s0.std.map (fun x => x * x)).length := by
      rw [List.length_map, hstd s0 (by simp)]; exact hj
    show (npAverage ((s0 :: rest).map (fun s => s.std.map (fun x => x * x)))
        ((s0 :: rest).map (fun s => (s.count : ℚ)))).getD j 0 = _
    rw [List.map_cons, npAverage_getD _ _ _ h0,
      ← List.map_cons (fun s => FeatStats.std s |>.map (fun x => x * x)),
      List.zipWith_map, List.zipWith_same]
    congr 1
    refine congrArg List.sum (List.map_congr_left ?_)
    intro s hs
    have hjs : j < s.std.length := by rw [hstd s hs]; exact hj
    rw [getD_map_lt _ hjs 0 0]
  · -- min
    intro j hj
    have h0 : j < s0.min.length := by rw [hmin s0 (by simp)]; exact hj
    have hlen : ∀ r ∈ rest.map FeatStats.min, r.length = s0.min.length := by
      intro r hr
      obtain ⟨s, hs, rfl⟩ := List.mem_map.mp hr
      rw [hmin s (by simp [hs]), hmin s0 (by simp)]
    have hv : (colwiseReduce min ((s0 :: rest).map FeatStats.min)).getD j 0
        = (rest.map (fun s => s.min.getD j 0)).foldl min (s0.min.getD j 0) := by
      rw [List.map_cons]
      show ((rest.map FeatStats.min).foldl (List.zipWith min) s0.min).getD j 0 = _
      rw [foldl_zipWith_getD min (rest.map FeatStats.min) s0.min hlen j h0,
        List.map_map]
      rfl
    constructor
    · show (aggregateFeat (s0 :: rest)).min.getD j 0 ∈ _
      have := foldl_sel_mem min min_choice (rest.map (fun s => s.min.getD j 0))
        (s0.min.getD j 0)
      rw [List.map_cons]
      exact (show (aggregateFeat (s0 :: rest)).min.getD j 0 = _ from hv) ▸ this
    · intro x hx
      rw [List.map_cons] at hx
      exact (show (aggregateFeat (s0 :: rest)).min.getD j 0 = _ from hv) ▸
        foldl_min_le (rest.map (fun s => s.min.getD j 0)) (s0.min.getD j 0) x hx
  · -- max
    intro j hj
    have h0 : j < s0.max.length := by rw [hmax s0 (by simp)]; exact hj
    have hlen : ∀ r ∈ rest.map FeatStats.max, r.length = s0.max.length := by
      intro r hr
      obtain ⟨s, hs, rfl⟩ := List.mem_map.mp hr
      rw [hmax s (by simp [hs]), hmax s0 (by simp)]
    have hv : (colwiseReduce max ((s0 :: rest).map FeatStats.max)).getD j 0
        = (rest.map (fun s => s.max.getD j 0)).foldl max (s0.max.getD j 0) := by
      rw [List.map_cons]
      show ((rest.map FeatStats.max).foldl (List.zipWith max) s0.max).getD j 0 = _
      rw [foldl_zipWith_getD max (rest.map FeatStats.max) s0.max hlen j h0,
        List.map_map]
      rfl
    constructor
    · show (aggregateFeat (s0 :: rest)).max.getD j 0 ∈ _
      have := foldl_sel_mem max max_choice (rest.map (fun s => s.max.getD j 0))
        (s0.max.getD j 0)
      rw [List.map_cons]
      exact (show (aggregateFeat (s0 :: rest)).max.getD j 0 = _ from hv) ▸ this
    · intro x hx
      rw [List.map_cons] at hx
      exact (show (aggregateFeat (s0 :: rest)).max.getD j 0 = _ from hv) ▸
        foldl_le_max (rest.map (fun s => s.max.getD j 0)) (s0.max.getD j 0) x hx

/-- Witness for C2: two episodes with counts {10, 30} and means {1.0, 2.0}
satisfy the theorem's hypotheses, and the aggregate has count 40 and mean
`(10*1.0 + 30*2.0)/40 = 1.75`. -/
theorem C2_global_stats_aggregation_witness :
    ([exStats10, exStats30] = exStats10 :: [exStats30]) ∧
    (∀ s ∈ [exStats10, exStats30], s.mean.length = 1) ∧
    (aggregateFeat [exStats10, exStats30]).count = 40 ∧
    (aggregateFeat [exStats10, exStats30]).mean.getD 0 0 = 7/4 := by
  have h := C2_global_stats_aggregation [exStats10, exStats30] exStats10 [exStats30] 1
    rfl (by decide) (by decide) (by decide) (by decide)
  refine ⟨rfl, by decide, ?_, ?_⟩
  · rw [h.1]; decide
  · rw [h.2.1 0 (by decide)]
    norm_num [exStats10, exStats30]

/-! ## C4: quantile estimator -/

/-- The `j`-th entry of `np.quantile(data, q, axis=0)` is the 1-D quantile of
the `j`-th column. -/
lemma npQuantileAxis0_getD (r0 : List ℚ) (rest : List (List ℚ)) (q : ℚ)
    {j : ℕ} (hj : j < r0.length) :
    (npQuantileAxis0 (r0 :: rest) q).getD j 0
      = npQuantile1D ((r0 :: rest).map (fun row => row.getD j 0)) q := by
  simp only [npQuantileAxis0, columnsOf, List.map_map]
  rw [getD_range_map _ _ hj]
  rfl

/-- Inserting at the front of a list it already bounds is a cons. -/
lemma insertSorted_cons_of_sorted (a : ℚ) (l : List ℚ)
    (h : List.Sorted (· ≤ ·) (a :: l)) : insertSorted a l = a :: l := by
  cases l with
  | nil => rfl
  | cons b bs =>
      have hab : a ≤ b := (List.sorted_cons.mp h).1 b (by simp)
      simp [insertSorted, hab]

/-- numpy's sort is the identity on an already-ascending column. -/
lemma sortAsc_eq_self (l : List ℚ) (h : List.Sorted (· ≤ ·) l) :
    sortAsc l = l := by
  induction l with
  | nil => rfl
  | cons a bs ih =>
      have : sortAsc (a :: bs) = insertSorted a (sortAsc bs) := rfl
      rw [this, ih ((List.sorted_cons.mp h).2)]
      exact insertSorted_cons_of_sorted a bs h

/-- The example column `[1, ..., 100]` is ascending. -/
lemma exCol_sorted : List.Sorted (· ≤ ·) exCol := by
  rw [exCol, List.Sorted, List.pairwise_cons]
  constructor
  · intro b hb
    obtain ⟨i, _, rfl⟩ := List.mem_map.mp hb
    have h0 : (0 : ℚ) ≤ (i : ℚ) := by exact_mod_cast Nat.zero_le i
    linarith
  · exact List.Pairwise.map _
      (fun i j hij => by
        have hle : (i : ℚ) ≤ (j : ℚ) := by exact_mod_cast Nat.le_of_lt hij
        linarith)
      (List.pairwise_lt_range 99)

lemma exCol_length : exCol.length = 100 := by simp [exCol]

lemma exCol_getD {k : ℕ} (hk : k < 100) (d : ℚ) : exCol.getD k d = (k : ℚ) + 1 := by
  cases k with
  | zero => simp [exCol]
  | succ m =>
      have hm : m < 99 := by omega
      rw [exCol, List.getD_cons_succ, getD_range_map _ _ hm]
      push_cast
      ring

lemma columnsOf_exColumn100 : columnsOf exColumn100 = [exCol] := rfl

/-- On the example column, linear interpolation gives `99 q + 1` whenever the
interpolation index `⌊99 q⌋ = k` satisfies `k + 1 < 100`. -/
lemma npQuantile1D_exCol (q : ℚ) (k : ℕ) (hfloor : ratFloorNat (q * 99) = k)
    (hk : k + 1 < 100) : npQuantile1D exCol q = q * 99 + 1 := by
  have hsort : sortAsc exCol = exCol := sortAsc_eq_self _ exCol_sorted
  simp only [npQuantile1D, hsort, exCol_length]
  rw [show ((100 : ℕ) : ℚ) - 1 = 99 from by norm_num, hfloor,
    exCol_getD (show k < 100 by omega) 0, exCol_getD hk ((k : ℚ) + 1)]
  push_cast
  ring

/-- On the single-column example, `np.quantile` along `axis=0` reduces to the
1-D quantile of the (only) column. -/
lemma npQuantileAxis0_exColumn100 (q : ℚ) :
    npQuantileAxis0 exColumn100 q = [npQuantile1D exCol q] := by
  rw [npQuantileAxis0, columnsOf_exColumn100, List.map_cons, List.map_nil]

/-- C4: on a two-dimensional raw array (rows = frames, columns = dimensions),
`compute_quantiles` returns five arrays, one per level 0.01/0.10/0.50/0.90/
0.99, each shaped like one row of the input, and each entry is the
linear-interpolation quantile of its own column (so columns are handled
independently); the estimator is a pure function of its input, hence
deterministic.  On the single-column input `[1, 2, ..., 100]` it yields
`q50 = 50.5`, `q01 = 1.99`, `q99 = 99.01`. -/
theorem C4_quantile_estimator (data : List (List ℚ)) (r0 : List ℚ)
    (rest : List (List ℚ)) (hdata : data = r0 :: rest)
    (hrect : ∀ r ∈ data, r.length = r0.length) :
    ((compute_quantiles data).q01.length = r0.length ∧
     (compute_quantiles data).q10.length = r0.length ∧
     (compute_quantiles data).q50.length = r0.length ∧
     (compute_quantiles data).q90.length = r0.length ∧
     (compute_quantiles data).q99.length = r0.length) ∧
    (∀ j, j < r0.length →
      (compute_quantiles data).q01.getD j 0
          = npQuantile1D (data.map (fun row => row.getD j 0)) (1 / 100) ∧
      (compute_quantiles data).q10.getD j 0
          = npQuantile1D (data.map (fun row => row.getD j 0)) (10 / 100) ∧
      (compute_quantiles data).q50.getD j 0
          = npQuantile1D (data.map (fun row => row.getD j 0)) (50 / 100) ∧
      (compute_quantiles data).q90.getD j 0
          = npQuantile1D (data.map (fun row => row.getD j 0)) (90 / 100) ∧
      (compute_quantiles data).q99.getD j 0
          = npQuantile1D (data.map (fun row => row.getD j 0)) (99 / 100)) ∧
    ((compute_quantiles exColumn100).q50 = [101 / 2] ∧
     (compute_quantiles exColumn100).q01 = [199 / 100] ∧
     (compute_quantiles exColumn100).q99 = [9901 / 100]) := by
  subst hdata
  refine ⟨?_, ?_, ?_, ?_, ?_⟩
  · refine ⟨?_, ?_, ?_, ?_, ?_⟩ <;>
      simp [compute_quantiles, npQuantileAxis0, columnsOf]
  · intro j hj
    exact ⟨npQuantileAxis0_getD r0 rest _ hj, npQuantileAxis0_getD r0 rest _ hj,
      npQuantileAxis0_getD r0 rest _ hj, npQuantileAxis0_getD r0 rest _ hj,
      npQuantileAxis0_getD r0 rest _ hj⟩
  · rw [show (compute_quantiles exColumn100).q50
          = npQuantileAxis0 exColumn100 (50 / 100) from rfl,
      npQuantileAxis0_exColumn100,
      npQuantile1D_exCol (50 / 100) 49 (by norm_num [ratFloorNat]; decide) (by omega)]
    norm_num
  · rw [show (compute_quantiles exColumn100).q01
          = npQuantileAxis0 exColumn100 (1 / 100) from rfl,
      npQuantileAxis0_exColumn100,
      npQuantile1D_exCol (1 / 100) 0 (by norm_num [ratFloorNat]) (by omega)]
    norm_num
  · rw [show (compute_quantiles exColumn100).q99
          = npQuantileAxis0 exColumn100 (99 / 100) from rfl,
      npQuantileAxis0_exColumn100,
      npQuantile1D_exCol (99 / 100) 98 (by norm_num [ratFloorNat]; decide) (by omega)]
    norm_num

/-- Witness for C4: a concrete 2x2 rectangular array satisfies the
hypotheses, and its five quantile arrays each have two entries. -/
theorem C4_quantile_estimator_witness :
    (([[1, 2], [3, 4]] : List (List ℚ)) = [(1 : ℚ), 2] :: [[3, 4]]) ∧
    (∀ r ∈ ([[1, 2], [3, 4]] : List (List ℚ)), r.length = [(1 : ℚ), 2].length) ∧
    (compute_quantiles [[1, 2], [3, 4]]).q50.length = [(1 : ℚ), 2].length := by
  have h := C4_quantile_estimator [[1, 2], [3, 4]] [1, 2] [[3, 4]] rfl (by decide)
  exact ⟨rfl, by decide, h.1.2.2.1⟩

/-! ## C1: row-range mappings -/

lemma prefixFrames_succ (l : List (List ℚ)) {i : ℕ} (hi : i < l.length) :
    prefixFrames l (i + 1) = prefixFrames l i + (l.getD i []).length := by
  unfold prefixFrames
  rw [List.take_succ, List.map_append, List.sum_append,
    List.getElem?_eq_getElem hi]
  simp [List.getD_eq_getElem?_getD, List.getElem?_eq_getElem hi]

/-- Closed form of the step-6 range bookkeeping when every episode's data
file exists: episode `i` is assigned the half-open row interval
`[cum + prefixFrames l i, cum + prefixFrames l (i+1))`, and its
`from`/`to` timestamps are the episode's own first and last `timestamp`. -/
lemma makeEpisodeRanges_getD (l : List (List ℚ)) :
    ∀ (c i : ℕ), i < l.length →
      (makeEpisodeRanges c (l.map some)).getD i none
        = some
            { dataset_from_index := c + prefixFrames l i
              dataset_to_index := c + prefixFrames l (i + 1)
              from_timestamp := (l.getD i []).headD 0
              to_timestamp := (l.getD i []).getLastD 0 } := by
  induction l with
  | nil => intro c i hi; simp at hi
  | cons ts rest ih =>
      intro c i hi
      rw [List.map_cons]
      cases i with
      | zero =>
          show (some _ :: makeEpisodeRanges (c + ts.length) (rest.map some)).getD 0 none
              = _
          rw [List.getD_cons_zero]
          simp [prefixFrames]
      | succ n =>
          have hn : n < rest.length := by simpa using hi
          show (some _ :: makeEpisodeRanges (c + ts.length) (rest.map some)).getD
              (n + 1) none = _
          rw [List.getD_cons_succ, ih (c + ts.length) n hn]
          have h1 : prefixFrames (ts :: rest) (n + 1)
              = ts.length + prefixFrames rest n := by simp [prefixFrames]
          have h2 : prefixFrames (ts :: rest) (n + 2)
              = ts.length + prefixFrames rest (n + 1) := by simp [prefixFrames]
          simp only [h1, h2, List.getD_cons_succ]
          congr 1
          simp [Nat.add_assoc]

/-- C1: when every episode data file exists, the episode-metadata loop
assigns contiguous, non-overlapping half-open row ranges in list order
(which is increasing episode-index order, episodes being listed and their
files iterated in that order): `to - from` equals the episode's frame
count, `from ≤ to`, and `to` of episode `i` equals `from` of episode `i+1`
(all episodes share chunk 0 / file 0). -/
theorem C1_row_range_mapping (l : List (List ℚ)) (i : ℕ) (hi : i < l.length) :
    ∃ r : EpRange,
      (makeEpisodeRanges 0 (l.map some)).getD i none = some r ∧
      r.dataset_from_index ≤ r.dataset_to_index ∧
      r.dataset_to_index - r.dataset_from_index = (l.getD i []).length ∧
      ∀ _ : i + 1 < l.length,
        ∃ r' : EpRange,
          (makeEpisodeRanges 0 (l.map some)).getD (i + 1) none = some r' ∧
          r.dataset_to_index = r'.dataset_from_index := by
  have hstep := prefixFrames_succ l hi
  refine ⟨_, makeEpisodeRanges_getD l 0 i hi, ?_, ?_, ?_⟩
  · show 0 + prefixFrames l i ≤ 0 + prefixFrames l (i + 1)
    omega
  · show 0 + prefixFrames l (i + 1) - (0 + prefixFrames l i) = _
    omega
  · intro hi'
    refine ⟨_, makeEpisodeRanges_getD l 0 (i + 1) hi', ?_⟩
    rfl

/-- Witness for C1 at a concrete two-episode dataset with frame counts 2
and 3: episode 0 gets rows [0, 2), episode 1 gets rows [2, 5). -/
theorem C1_row_range_mapping_witness :
    (0 < ([[0, 1], [2, 3, 4]] : List (List ℚ)).length) ∧
    ∃ r : EpRange,
      (makeEpisodeRanges 0 (([[0, 1], [2, 3, 4]] : List (List ℚ)).map some)).getD
          0 none = some r ∧
      r.dataset_from_index ≤ r.dataset_to_index ∧
      r.dataset_to_index - r.dataset_from_index
        = (([[0, 1], [2, 3, 4]] : List (List ℚ)).getD 0 []).length ∧
      ∀ _ : 0 + 1 < ([[0, 1], [2, 3, 4]] : List (List ℚ)).length,
        ∃ r' : EpRange,
          (makeEpisodeRanges 0
              (([[0, 1], [2, 3, 4]] : List (List ℚ)).map some)).getD
            (0 + 1) none = some r' ∧
          r.dataset_to_index = r'.dataset_from_index :=
  ⟨by decide, C1_row_range_mapping [[0, 1], [2, 3, 4]] 0 (by decide)⟩

/-! ## C3: tabular consolidation -/

/-- Indexing into a flattened list of blocks: position (offset of block `k`)
`+ j` reads entry `j` of block `k`. -/
lemma flatten_getD {α : Type} (d : α) :
    ∀ (ls : List (List α)) (k : ℕ), k < ls.length →
      ∀ j, j < (ls.getD k []).length →
      ls.flatten.getD ((((ls.take k).map List.length).sum) + j) d
        = (ls.getD k []).getD j d := by
  intro ls
  induction ls with
  | nil => intro k hk; simp at hk
  | cons x rest ih =>
      intro k hk j hj
      cases k with
      | zero =>
          rw [List.getD_cons_zero] at hj ⊢
          simp only [List.take_zero, List.map_nil, List.sum_nil, Nat.zero_add]
          rw [List.flatten_cons, List.getD_append _ _ _ _ hj]
      | succ n =>
          have hn : n < rest.length := by simpa using hk
          rw [List.getD_cons_succ] at hj ⊢
          have hsum : (((x :: rest).take (n + 1)).map List.length).sum
              = x.length + ((rest.take n).map List.length).sum := by
            simp [List.take_succ_cons]
          rw [hsum, List.flatten_cons, Nat.add_assoc,
            List.getD_append_right _ _ _ _ (Nat.le_add_right _ _),
            Nat.add_sub_cancel_left]
          exact ih n hn j hj

/-- C3: the consolidated tabular file is, row for row, the concatenation of
the source per-episode tables in input order (the episode files are globbed
and sorted, i.e. increasing episode order) with unchanged column order: the
columns are those of the sources, the rows are exactly the flattened source
rows (nothing reordered, deduplicated, or dropped — the length is the sum of
the source lengths), and reading position `offset_k + j` of the consolidated
file reproduces row `j` of source episode `k`. -/
theorem C3_tabular_concatenation (ts : List Table) (t0 : Table)
    (rest : List Table) (c : List String) (hts : ts = t0 :: rest)
    (hcols : ∀ t ∈ ts, t.cols = c) :
    (concatTables ts).cols = c ∧
    (concatTables ts).rows = (ts.map Table.rows).flatten ∧
    (concatTables ts).rows.length = (ts.map (fun t => t.rows.length)).sum ∧
    (∀ k, k < ts.length → ∀ j, j < (ts.getD k ⟨[], []⟩).rows.length →
      (concatTables ts).rows.getD (rowOffset ts k + j) []
        = (ts.getD k ⟨[], []⟩).rows.getD j []) := by
  subst hts
  refine ⟨?_, rfl, ?_, ?_⟩
  · show ((t0 :: rest).headD ⟨[], []⟩).cols = c
    exact hcols t0 (by simp)
  · show ((t0 :: rest).map Table.rows).flatten.length = _
    rw [List.length_flatten, List.map_map]
    rfl
  · intro k hk j hj
    have hk' : k < ((t0 :: rest).map Table.rows).length := by simpa using hk
    have hgd : ((t0 :: rest).map Table.rows).getD k []
        = ((t0 :: rest).getD k ⟨[], []⟩).rows :=
      getD_map_lt Table.rows hk ⟨[], []⟩ []
    have hoff : rowOffset (t0 :: rest) k
        = ((((t0 :: rest).map Table.rows).take k).map List.length).sum := by
      rw [rowOffset, ← List.map_take, List.map_map]
      rfl
    have hmain := flatten_getD ([] : List ℚ) ((t0 :: rest).map Table.rows) k hk'
      j (by rw [hgd]; exact hj)
    rw [hgd] at hmain
    rw [hoff]
    exact hmain

/-- Witness for C3: three one-column tables with 2, 1 and 2 rows; reading the
consolidated file at offset of table 1 reproduces table 1's only row. -/
theorem C3_tabular_concatenation_witness :
    (∀ t ∈ [tbl1, tbl2, tbl3], t.cols = ["a"]) ∧
    (concatTables [tbl1, tbl2, tbl3]).rows.getD (rowOffset [tbl1, tbl2, tbl3] 1 + 0) []
      = [3] := by
  have h := C3_tabular_concatenation [tbl1, tbl2, tbl3] tbl1 [tbl2, tbl3] ["a"]
    rfl (by decide)
  refine ⟨by decide, ?_⟩
  rw [h.2.2.2 1 (by decide) 0 (by decide)]
  decide

/-! ## C5: time-range mappings are not shifted by a cumulative offset -/

/-- C5 is refuted by the code: `from_timestamp`/`to_timestamp` are copied
verbatim from the episode's own `timestamp` column (lines 281-283), with no
cumulative time offset, so for two episodes whose timestamp columns are both
`[0, 1]` (per-episode clocks, as recorded in the source layout) both ranges
are `[0, 1]`: the `to` of episode 0 is `1` while the `from` of episode 1 is
`0`, the contiguity rule fails, and the two intervals overlap. -/
theorem C5_time_ranges_unshifted :
    (makeEpisodeRanges 0 (([[0, 1], [0, 1]] : List (List ℚ)).map some))
      = [some ⟨0, 2, 0, 1⟩, some ⟨2, 4, 0, 1⟩] ∧
    ((makeEpisodeRanges 0 (([[0, 1], [0, 1]] : List (List ℚ)).map some)).getD
        0 none |>.map EpRange.to_timestamp)
      ≠ ((makeEpisodeRanges 0 (([[0, 1], [0, 1]] : List (List ℚ)).map some)).getD
        1 none |>.map EpRange.from_timestamp) := by
  constructor
  · rfl
  · decide

/-! ## C6: video-encoder failure fallback -/

/-- Counterexample to C6 as stated: on an encoder failure with 3 episode
videos the fallback (copy of the first video only) is taken and a warning is
logged, but NO `DegradedArtifact` flag is recorded — the source has no
provenance mechanism, so the degraded ranges are silently accepted. -/
theorem C6_degraded_not_flagged :
    (consolidateVideos 3 false).output = VideoOutput.copiedFirst ∧
    (consolidateVideos 3 false).warned = true ∧
    (consolidateVideos 3 false).excPropagated = false ∧
    (consolidateVideos 3 false).degradedFlags = [] :=
  ⟨rfl, rfl, rfl, rfl⟩

/-- C6 (amended): when the external encoder fails for a camera stream with
at least one episode video, the conversion copies only the first episode's
video, logs a warning, and no exception propagates past the
video-consolidation step — but the affected episodes are NOT flagged as
`DegradedArtifact`: no provenance is recorded on any path. -/
theorem C6_fallback_behavior (n : ℕ) (h : 0 < n) :
    consolidateVideos n false
      = { output := .copiedFirst, manifestRemains := true, warned := true
          excPropagated := false, degradedFlags := [] } := by
  have hne : ¬ (n = 0) := by omega
  simp [consolidateVideos, hne]

/-- Witness for C6 at 3 episode videos. -/
theorem C6_fallback_behavior_witness :
    0 < 3 ∧
    consolidateVideos 3 false
      = { output := .copiedFirst, manifestRemains := true, warned := true
          excPropagated := false, degradedFlags := [] } :=
  ⟨by decide, C6_fallback_behavior 3 (by decide)⟩

/-! ## C9: concat-manifest cleanup -/

/-- Counterexample to C9 as stated: on the failure path the concat manifest
still exists when the step ends — `concat_file.unlink()` sits inside the
`try` block after the encoder call and is never reached when the encoder
fails. -/
theorem C9_manifest_left_on_failure :
    (consolidateVideos 3 false).manifestRemains = true := rfl

/-- C9 (amended): the concat manifest is removed on the success path only;
on the failure path (encoder error, at least one video) it is left behind. -/
theorem C9_manifest_cleanup (n : ℕ) :
    (consolidateVideos n true).manifestRemains = false ∧
    (0 < n → (consolidateVideos n false).manifestRemains = true) := by
  constructor
  · by_cases h : n = 0 <;> simp [consolidateVideos, h]
  · intro h
    have hne : ¬ (n = 0) := by omega
    simp [consolidateVideos, hne]

/-- Witness for C9 at 2 episode videos. -/
theorem C9_manifest_cleanup_witness :
    (consolidateVideos 2 true).manifestRemains = false ∧
    (consolidateVideos 2 false).manifestRemains = true :=
  ⟨(C9_manifest_cleanup 2).1, (C9_manifest_cleanup 2).2 (by decide)⟩

/-! ## C7: duplicate episode indices in the metadata loader -/

/-- Counterexample to C7 as stated: two records with the same episode index
0 are NOT rejected — the loader returns normally and the later record has
silently overwritten the earlier one. -/
theorem C7_duplicate_index_not_rejected :
    load_v21_episodes_stats [(0, epFG), (0, epFonly)] = [(0, epFonly)] := by
  decide

/-- C7 (amended): the loader tolerates episode indices in any storage order
(contiguous or not) and never fails; a duplicated index is not rejected but
resolved by letting the LAST record with that index win. -/
theorem C7_loader_last_record_wins (records : List (ℕ × EpStats)) (k : ℕ) :
    dictGet? k (load_v21_episodes_stats records) = lastLookup k records := by
  rw [load_v21_episodes_stats, dictGet?_foldl_insert_records]
  cases h : lastLookup k records <;> simp [dictGet?]

/-! ## C8: feature coverage gaps during global aggregation -/

/-- Reducing the global-stats aggregation at a nonempty episode mapping. -/
lemma compute_global_stats_cons (e : ℕ × EpStats) (rest : List (ℕ × EpStats)) :
    compute_global_stats_from_episodes (e :: rest)
      = (dictKeys e.2).foldl
          (fun acc feat =>
            dictInsert feat
              (aggregateFeat (collectFeat (dictValues (e :: rest)) feat)) acc)
          [] := rfl

/-- Counterexample to C8 as stated: with episode 0 covering features `f`,`g`
and episode 1 covering only `f`, the aggregation does NOT fail with any
`StatisticsInconsistency`: it returns normally, aggregating `f` over both
episodes and `g` over episode 0 alone. -/
theorem C8_missing_feature_no_error :
    compute_global_stats_from_episodes [(0, epFG), (1, epFonly)]
      = [("f", aggregateFeat [fsA, fsC]), ("g", aggregateFeat [fsB])] := rfl

/-- C8 (amended): an episode missing a feature is tolerated by skipping that
episode's contribution to that feature — deleting such an episode from the
mapping does not change the feature's global entry — and the aggregation
never raises an error (it is a total function). -/
theorem C8_partial_coverage_skips (pre post : List (ℕ × EpStats)) (i : ℕ)
    (badEp : EpStats) (feat : String) (hpre : pre ≠ [])
    (hbad : dictGet? feat badEp = none) :
    dictGet? feat (compute_global_stats_from_episodes (pre ++ (i, badEp) :: post))
      = dictGet? feat (compute_global_stats_from_episodes (pre ++ post)) := by
  obtain ⟨p0, pre', rfl⟩ := List.exists_cons_of_ne_nil hpre
  rw [List.cons_append, List.cons_append, compute_global_stats_cons,
    compute_global_stats_cons, dictGet?_foldl_insertF, dictGet?_foldl_insertF]
  by_cases hmem : feat ∈ dictKeys p0.2
  · rw [if_pos hmem, if_pos hmem]
    have hcollect :
        collectFeat (dictValues (p0 :: (pre' ++ (i, badEp) :: post))) feat
          = collectFeat (dictValues (p0 :: (pre' ++ post))) feat := by
      simp [collectFeat, dictValues, List.filterMap_append, List.filterMap_cons,
        hbad]
    rw [hcollect]
  · rw [if_neg hmem, if_neg hmem]

/-- Witness for C8: deleting the `g`-less episode 1 leaves `g`'s global
entry unchanged. -/
theorem C8_partial_coverage_skips_witness :
    ([((0 : ℕ), epFG)] ≠ []) ∧ (dictGet? "g" epFonly = none) ∧
    dictGet? "g"
        (compute_global_stats_from_episodes ([(0, epFG)] ++ (1, epFonly) :: []))
      = dictGet? "g" (compute_global_stats_from_episodes ([(0, epFG)] ++ [])) :=
  ⟨by decide, by decide,
    C8_partial_coverage_skips [(0, epFG)] [] 1 epFonly "g" (by decide) (by decide)⟩

/-! ## C10: global statistics cover exactly the first episode's features -/

/-- C10: a feature receives a global-statistics entry exactly when it occurs
in the FIRST loaded episode's statistics — a feature present only in later
episodes' statistics gets no entry, and no error is raised (the aggregation
is total). -/
theorem C10_features_from_first_episode (eps : List (ℕ × EpStats))
    (e0 : ℕ × EpStats) (rest : List (ℕ × EpStats)) (heps : eps = e0 :: rest)
    (feat : String) :
    (dictGet? feat (compute_global_stats_from_episodes eps)).isSome
      ↔ feat ∈ dictKeys e0.2 := by
  subst heps
  rw [compute_global_stats_cons, dictGet?_foldl_insertF]
  by_cases hmem : feat ∈ dictKeys e0.2 <;> simp [hmem, dictGet?]

/-- Witness for C10: with first episode covering only `f`, the feature `g`
present in the second episode's statistics gets no global entry. -/
theorem C10_features_from_first_episode_witness :
    ((dictGet? "g"
        (compute_global_stats_from_episodes [(0, epFonly), (1, epFG)])).isSome
      ↔ "g" ∈ dictKeys epFonly) ∧
    ¬ (dictGet? "g"
        (compute_global_stats_from_episodes [(0, epFonly), (1, epFG)])).isSome := by
  have h := C10_features_from_first_episode [(0, epFonly), (1, epFG)]
    (0, epFonly) [(1, epFG)] rfl "g"
  exact ⟨h, by rw [h]; decide⟩

end ConvertV30
